import Mathlib

/-!
Verification of the schema-versioned-storage core: a shallow embedding in
Lean 4 of the persisted-state lifecycle engine (src/core/persisted.ts),
the forward-only migration sequencer (src/core/migrations.ts), and the
schema-shape fingerprinting (src/utils/schema-shape.ts together with the
hash of scripts/lib/generate-schema-hashes.ts, which states that it matches
the one in src/utils/hash.ts).

Modelling conventions.
* Structured (JSON-style) data is the inductive `Value`; JS objects are
  association lists with unique keys in insertion order.
* The byte level of storage is abstracted to `Stored`: `corrupt` is any
  blob `JSON.parse` rejects, `json v` any blob it parses to `v`.
  `JSON.stringify` followed by `JSON.parse` is the identity at this level.
* A Zod schema is consumed, not reimplemented (it is an external capability
  of the library): it is a pure `parse : Value → Option Value`, `none`
  modelling a thrown ZodError.
* A thrown JS exception is `none` / an `error` value; of an async function
  a rejected promise likewise.
* Numbers that the code uses as versions and char codes are integers in the
  source (schema versions, UTF-16 code units), so they are `Int` / `Nat`;
  the 32-bit wrap-around of the hash is written out explicitly.
* The storage adapter of the embedding is the well-behaved in-memory one
  (src/adapters/memory.ts): `getItem`/`setItem`/`removeItem` do not throw.
* States written by `set` are objects (the library requires an `_version`
  field at the root), so property assignment is modelled on objects and is
  the identity elsewhere.
-/

set_option allowUnsafeReducibility true in
attribute [semireducible] List.mergeSort List.merge

namespace SVS

/-- JSON-style structured values, as produced by `JSON.parse`. -/
inductive Value where
  | vNull : Value
  | vBool : Bool → Value
  | vNum : Int → Value
  | vStr : String → Value
  | vArr : List Value → Value
  | vObj : List (String × Value) → Value
deriving Repr

/-- Association-list lookup, JS property read `o[k]` (None = undefined). -/
def lookupKey {β : Type} (k : String) : List (String × β) → Option β
  | [] => none
  | (k', v) :: rest => if k' = k then some v else lookupKey k rest

/-- JS property assignment `o[k] = v`: updates an existing key in place
(keeping insertion order), appends a fresh key at the end. -/
def setKey {β : Type} (k : String) (v : β) : List (String × β) → List (String × β)
  | [] => [(k, v)]
  | (k', v') :: rest => if k' = k then (k, v) :: rest else (k', v') :: setKey k v rest

/-- JS `k in o`. -/
def hasKey {β : Type} (k : String) (fs : List (String × β)) : Bool :=
  (lookupKey k fs).isSome

/-- Property read on a `Value`: `undefined` (None) unless an object has the key. -/
def Value.lookup : Value → String → Option Value
  | .vObj fs, k => lookupKey k fs
  | _, _ => none

/-- Property assignment on a `Value`; states reaching it are objects
(see the header), elsewhere it is the identity. -/
def Value.setProp : Value → String → Value → Value
  | .vObj fs, k, v => .vObj (setKey k v fs)
  | s, _, _ => s

/-! ### Migration engine — src/core/migrations.ts -/

/-- `MigrationMetadata` of src/types. -/
structure MigrationMetadata where
  version : Int
  description : String
deriving Repr, DecidableEq

/-- A `Migration`: metadata plus the transform; `migrate` returning `none`
models the transform throwing. -/
structure Migration where
  metadata : MigrationMetadata
  migrate : Value → Option Value

/-- The error taxonomy of `runMigrations` (§7 of the spec): the three
`throw new Error(...)` sites of src/core/migrations.ts. -/
inductive MigError where
  | backward (fromVersion toVersion : Int)
  | missing (versions : List Int) (fromVersion toVersion : Int)
  | step (version : Int) (description : String)
deriving Repr, DecidableEq

/-- The comparator `(a, b) => a.metadata.version - b.metadata.version`
handed to the (stable) `Array.prototype.sort`. -/
def migLE (a b : Migration) : Bool :=
  decide (a.metadata.version ≤ b.metadata.version)

/-- `[...migrations].sort((a, b) => a.metadata.version - b.metadata.version)`. -/
def sortedMigrations (migrations : List Migration) : List Migration :=
  migrations.mergeSort migLE

/-- The subsequence that needs to run:
`m.metadata.version > fromVersion && m.metadata.version <= toVersion`. -/
def migrationsToRun (fromVersion toVersion : Int) (migrations : List Migration) :
    List Migration :=
  (sortedMigrations migrations).filter fun m =>
    decide (fromVersion < m.metadata.version) && decide (m.metadata.version ≤ toVersion)

/-- The expected version set `{fromVersion+1 .. toVersion}`, in the ascending
order the `for` loop inserts it into the `Set`. -/
def expectedVersions (fromVersion toVersion : Int) : List Int :=
  (List.range (toVersion - fromVersion).toNat).map fun i : Nat => fromVersion + 1 + (i : Int)

/-- The versions actually present in the subsequence to run. -/
def providedVersions (fromVersion toVersion : Int) (migrations : List Migration) :
    List Int :=
  (migrationsToRun fromVersion toVersion migrations).map (·.metadata.version)

/-- `expectedVersions.filter(v => !providedVersions.has(v))`. -/
def missingVersions (fromVersion toVersion : Int) (migrations : List Migration) :
    List Int :=
  (expectedVersions fromVersion toVersion).filter fun v =>
    !(providedVersions fromVersion toVersion migrations).contains v

/-- The fold over the selected migrations, each transform receiving the
previous transform's output; a throwing transform aborts with
`MigrationStep` and no partial state escapes. -/
def foldMigrations : Value → List Migration → Except MigError Value
  | s, [] => .ok s
  | s, m :: ms =>
    match m.migrate s with
    | some s' => foldMigrations s' ms
    | none => .error (.step m.metadata.version m.metadata.description)

/-- `runMigrations` of src/core/migrations.ts. -/
def runMigrations (state : Value) (fromVersion toVersion : Int)
    (migrations : List Migration) : Except MigError Value :=
  if fromVersion = toVersion then .ok state
  else if fromVersion > toVersion then .error (.backward fromVersion toVersion)
  else if missingVersions fromVersion toVersion migrations ≠ [] then
    .error (.missing (missingVersions fromVersion toVersion migrations) fromVersion toVersion)
  else
    foldMigrations state (migrationsToRun fromVersion toVersion migrations)

/-! ### The hash — simpleHash of scripts/lib/generate-schema-hashes.ts
(stated there to match src/utils/hash.ts, whose tests it shares) -/

/-- JS `ToInt32`: wrap to the signed 32-bit range, as `x & x` and `<< 5`
perform it. -/
def toInt32 (n : Int) : Int :=
  if n % 4294967296 < 2147483648 then n % 4294967296 else n % 4294967296 - 4294967296

/-- One loop iteration: `hash = (hash << 5) - hash + char; hash = hash & hash`. -/
def hashStep (h : Int) (c : Nat) : Int :=
  toInt32 (toInt32 (h * 32) - h + c)

/-- The base-36 digit characters `0-9a-z` of `Number.prototype.toString(36)`. -/
def base36Digit (d : Nat) : Char :=
  if d < 10 then Char.ofNat (48 + d) else Char.ofNat (87 + d)

/-- Digits of `n` in base 36, most significant first. -/
def toBase36Aux : Nat → List Char → List Char
  | 0, acc => acc
  | n + 1, acc => toBase36Aux ((n + 1) / 36) (base36Digit ((n + 1) % 36) :: acc)
decreasing_by exact Nat.div_lt_self (Nat.succ_pos n) (by omega)

/-- JS `n.toString(36)` for a non-negative integer. -/
def toBase36 (n : Nat) : String :=
  if n = 0 then "0" else String.mk (toBase36Aux n [])

/-- `simpleHash` over the sequence of UTF-16 code units of the input string:
the rolling loop, then `Math.abs(hash).toString(36)`. -/
def simpleHash (codes : List Nat) : String :=
  toBase36 (codes.foldl hashStep 0).natAbs

/-- The code units of a string (`charCodeAt`); shape strings are ASCII, for
which Lean code points and UTF-16 units agree. -/
def strCodes (s : String) : List Nat :=
  s.data.map Char.toNat

/-- `simpleHash` on strings. -/
def simpleHashStr (s : String) : String :=
  simpleHash (strCodes s)

/-- Modelled from the spec's words (§4.3, for the refinement claim about the
hash): one step of the accumulator `h := h*31 + charCode`, truncated to 32
bits at each step. -/
def specHashStep (h : Int) (c : Nat) : Int :=
  toInt32 (h * 31 + c)

/-- Modelled from the spec's words: the whole spec-side hash, starting from
`h = 0` and emitting the absolute value in base 36. -/
def specSimpleHash (codes : List Nat) : String :=
  toBase36 (codes.foldl specHashStep 0).natAbs

/-! ### Persisted state manager — src/core/persisted.ts -/

/-- What a storage slot holds at the structured-data level: `corrupt` is a
blob `JSON.parse` throws on, `json v` one it parses to `v`. -/
inductive Stored where
  | corrupt : Stored
  | json : Value → Stored

/-- The adapter's key-value table (the in-memory adapter's `Map`). -/
abbrev Store := List (String × Stored)

/-- `setItem`. -/
def storeSet (st : Store) (k : String) (v : Stored) : Store :=
  setKey k v st

/-- `removeItem`. -/
def storeRemove (st : Store) (k : String) : Store :=
  st.filter fun p => !(p.1 = k : Bool)

/-- The consumed Zod schema: `parse` returning `none` models a thrown
ZodError (spec §3: parse is a pure function of its input). -/
structure Schema where
  parse : Value → Option Value

/-- `PersistedStateConfig`, with `getCurrentVersion` already sampled into
`currentVersion` as the closure does at creation time. -/
structure Config where
  schema : Schema
  storageKey : String
  migrations : List Migration
  currentVersion : Int
  schemaHashes : List (Int × String)

/-- The closure's mutable cells `state` and `initialized`. -/
structure MState where
  state : Option Value
  initialized : Bool

/-- The errors a manager operation surfaces (spec §7). -/
inductive SErr where
  | notInitialized
  | validation
deriving Repr, DecidableEq

/-- `getDefaults(version)`: `schema.parse({ _version: version })`; `none`
models the parse throwing (a schema without full defaults). -/
def getDefaults (cfg : Config) (version : Int) : Option Value :=
  cfg.schema.parse (.vObj [("_version", .vNum version)])

/-- `parsed._version ?? 0` as the lifecycle consumes it: the numeric version
of the blob, `0` when the field is missing (the code paths the claims
quantify over carry a numeric or absent `_version`). -/
def storedVersionOf (v : Value) : Int :=
  match v.lookup "_version" with
  | some (.vNum n) => n
  | _ => 0

/-- The body of init()'s inner `try` for a present, parseable blob: branch
on the stored version, maybe migrate, validate. `none` is any throw, which
the inner `catch` recovers to defaults. A `null` blob throws on the member
access `parsed._version` itself. -/
def initCandidate (cfg : Config) : Value → Option Value
  | .vNull => none
  | parsed =>
    let storedVersion := storedVersionOf parsed
    let candidate : Option Value :=
      if storedVersion < cfg.currentVersion then
        match runMigrations parsed storedVersion cfg.currentVersion cfg.migrations with
        | .ok v => some v
        | .error _ => none
      else if storedVersion = cfg.currentVersion then
        some parsed
      else
        getDefaults cfg cfg.currentVersion
    candidate.bind cfg.schema.parse

/-- Lines 130–133 of init(): force the reserved `_version` field of the
final state to `currentVersion` — only when the state is an object that
already has the field (`"_version" in state`). -/
def forceVersion (currentVersion : Int) : Value → Value
  | .vObj fs =>
    if hasKey "_version" fs then .vObj (setKey "_version" (.vNum currentVersion) fs)
    else .vObj fs
  | v => v

/-- `init()`. Returns the new cells (`Except.error` = the promise rejecting,
which happens only when a recovery path needs defaults and `getDefaults`
itself throws) and the number of `getItem` calls performed. `init` never
writes to storage, so the `Store` is unchanged and not returned. -/
def init (cfg : Config) (ms : MState) (st : Store) : Except Unit MState × Nat :=
  if ms.initialized then (.ok ms, 0)
  else
    let candidate : Option Value :=
      match lookupKey cfg.storageKey st with
      | some (.json parsed) => initCandidate cfg parsed
      | _ => none
    let newState : Option Value :=
      match candidate with
      | some s => some s
      | none => getDefaults cfg cfg.currentVersion
    match newState with
    | some s => (.ok ⟨some (forceVersion cfg.currentVersion s), true⟩, 1)
    | none => (.error (), 1)

/-- `get(key)`: NotInitialized unless init() completed; otherwise the field
read from the in-memory state. -/
def get (ms : MState) (key : String) : Except SErr (Option Value) :=
  match ms.state, ms.initialized with
  | some s, true => .ok (s.lookup key)
  | _, _ => .error .notInitialized

/-- `getAll()`. -/
def getAll (ms : MState) : Except SErr Value :=
  match ms.state, ms.initialized with
  | some s, true => .ok s
  | _, _ => .error .notInitialized

/-- The outcome of a mutating operation: the cells and the store after the
call, plus the error the returned promise rejects with, if any. `set` on a
validation failure has already mutated the state object in place
(`(state as any)[key] = value` precedes `schema.parse`), so the
post-call cells are part of the result even when `err` is set. -/
structure OpResult where
  ms : MState
  st : Store
  err : Option SErr

/-- `set(key, value)`. -/
def set (cfg : Config) (ms : MState) (st : Store) (key : String) (value : Value) :
    OpResult :=
  match ms.state, ms.initialized with
  | some s, true =>
    let draft := s.setProp key value
    match cfg.schema.parse draft with
    | some validated =>
      ⟨⟨some validated, true⟩, storeSet st cfg.storageKey (.json validated), none⟩
    | none => ⟨⟨some draft, true⟩, st, some .validation⟩
  | _, _ => ⟨ms, st, some .notInitialized⟩

/-- `update(key, updater)`: read the current value, apply the updater,
delegate to `set`. The updater receives `undefined` (None) for an absent
field, as in JS. -/
def update (cfg : Config) (ms : MState) (st : Store) (key : String)
    (updater : Option Value → Value) : OpResult :=
  match ms.state, ms.initialized with
  | some s, true => set cfg ms st key (updater (s.lookup key))
  | _, _ => ⟨ms, st, some .notInitialized⟩

/-- `clear()`: reset the cells to defaults for `currentVersion` (with no
check of `initialized`), then remove the persisted bytes. `getDefaults`
throwing rejects before anything is touched. -/
def clear (cfg : Config) (ms : MState) (st : Store) : Except Unit (MState × Store) :=
  match getDefaults cfg cfg.currentVersion with
  | some d => .ok (⟨some d, ms.initialized⟩, storeRemove st cfg.storageKey)
  | none => .error ()

/-! ### Schema-shape fingerprinting — src/utils/schema-shape.ts -/

/-- The closed set of schema-node variants `getTypeString` distinguishes
(spec §4.3); `zother` stands for every node outside it, which renders as
the fixed token "unknown". `zliteral` carries the text its value
interpolates to. -/
inductive ZType where
  | zstring
  | znumber
  | zboolean
  | znull
  | zundefined
  | zarray (element : ZType)
  | zobject (fields : List (String × ZType))
  | zoptional (innerType : ZType)
  | znullable (innerType : ZType)
  | zdefault (innerType : ZType)
  | zenum (options : List String)
  | zliteral (value : String)
  | zunion (options : List ZType)
  | zintersection (left right : ZType)
  | zrecord (valueType : ZType)
  | ztuple (items : List ZType)
  | zmap (valueType : ZType)
  | zset (valueType : ZType)
  | zdate
  | zany
  | zunknown
  | zvoid
  | znever
  | zother
deriving Repr

/-- `Object.keys(shape).sort()`'s comparator, lifted to rendered fields:
compare the keys only. -/
def fieldLE (a b : String × String) : Bool :=
  decide (a.1 ≤ b.1)

/-- `keys.sort().map(k => k + ":" + render(shape[k])).join(",")`. Rendering
each field before the (stable, key-only) sort gives the same string as
sorting the keys first, and keeps the recursion structural. -/
def renderSortedFields (rendered : List (String × String)) : String :=
  String.intercalate "," ((rendered.mergeSort fieldLE).map fun p => p.1 ++ ":" ++ p.2)

mutual

/-- `getTypeString` of src/utils/schema-shape.ts: the canonical token of a
schema node, total over the closed variant set. -/
def getTypeString : ZType → String
  | .zstring => "string"
  | .znumber => "number"
  | .zboolean => "boolean"
  | .znull => "null"
  | .zundefined => "undefined"
  | .zarray element => "array<" ++ getTypeString element ++ ">"
  | .zobject fields => "object\x7b" ++ renderSortedFields (renderFields fields) ++ "\x7d"
  | .zoptional innerType => "optional<" ++ getTypeString innerType ++ ">"
  | .znullable innerType => "nullable<" ++ getTypeString innerType ++ ">"
  | .zdefault innerType => "default<" ++ getTypeString innerType ++ ">"
  | .zenum options => "enum[" ++ String.intercalate "," options ++ "]"
  | .zliteral value => "literal<" ++ value ++ ">"
  | .zunion options => "union<" ++ String.intercalate "|" (renderList options) ++ ">"
  | .zintersection left right =>
    "intersection<" ++ getTypeString left ++ "&" ++ getTypeString right ++ ">"
  | .zrecord valueType => "record<" ++ getTypeString valueType ++ ">"
  | .ztuple items => "tuple<" ++ String.intercalate "," (renderList items) ++ ">"
  | .zmap valueType => "map<" ++ getTypeString valueType ++ ">"
  | .zset valueType => "set<" ++ getTypeString valueType ++ ">"
  | .zdate => "date"
  | .zany => "any"
  | .zunknown => "unknown"
  | .zvoid => "void"
  | .znever => "never"
  | .zother => "unknown"

/-- `options.map(getTypeString)` for union and tuple members. -/
def renderList : List ZType → List String
  | [] => []
  | t :: ts => getTypeString t :: renderList ts

/-- Each field rendered, keeping its key. -/
def renderFields : List (String × ZType) → List (String × String)
  | [] => []
  | (k, t) :: fs => (k, getTypeString t) :: renderFields fs

end

/-- The InvalidSchema failure of `extractShape` (spec §4.3). -/
inductive ShapeErr where
  | invalidSchema
deriving Repr, DecidableEq

/-- `extractSchemaShape`: requires the root to expose a field map (the
runtime guard of scripts/lib/generate-schema-hashes.ts, which the typed
signature `z.ZodObject` of src/utils/schema-shape.ts enforces statically);
renders the key-sorted shape string. -/
def extractSchemaShape : ZType → Except ShapeErr String
  | .zobject fields =>
    .ok ("\x7b" ++ renderSortedFields (renderFields fields) ++ "\x7d")
  | _ => .error .invalidSchema

/-- `hashSchema` of src/utils/schema-shape.ts: `simpleHash(extractSchemaShape(schema))`. -/
def hashSchema (schema : ZType) : Except ShapeErr String :=
  (extractSchemaShape schema).map simpleHashStr

/-! ### Concrete instances for the witnesses -/

/-- A migration used by the concrete witnesses: version 3 only. -/
def migOnly3 : Migration :=
  ⟨⟨3, "add email"⟩, fun v => some v⟩

/-- Witness migration, version 1. -/
def migV1 : Migration :=
  ⟨⟨1, "one"⟩, fun v => some (.vArr [v])⟩

/-- Witness migration, version 2. -/
def migV2 : Migration :=
  ⟨⟨2, "two"⟩, fun v => some (.vArr [v, v])⟩

/-- Witness migration, version 3. -/
def migV3 : Migration :=
  ⟨⟨3, "three"⟩, fun v => some (.vObj [("wrapped", v)])⟩

/-- A concrete schema parse for witnesses: an object schema
`{_version: number, count: number (default 0)}`, mirroring Zod's strip-and-
fill-defaults behavior. -/
def demoParse : Value → Option Value := fun v =>
  match v.lookup "_version", v.lookup "count" with
  | some (.vNum n), some (.vNum c) =>
    some (.vObj [("_version", .vNum n), ("count", .vNum c)])
  | some (.vNum n), none =>
    some (.vObj [("_version", .vNum n), ("count", .vNum 0)])
  | _, _ => none

/-- A concrete manager config at version 1 with no migrations. -/
def demoCfg : Config :=
  ⟨⟨demoParse⟩, "app-state", [], 1, [(1, "uuf3ak")]⟩

/-- The schema defaults the demo schema produces for version 1. -/
def demoDefaults : Value :=
  .vObj [("_version", .vNum 1), ("count", .vNum 0)]

/-- A parseable blob that is schema-invalid at the current version. -/
def demoBadBlob : Value :=
  .vObj [("_version", .vNum 1), ("count", .vStr "x")]

/-- A concrete schema parse that rejects any state whose `count` is not 0:
used to exhibit `set`'s behavior on a validation failure. -/
def strictCountParse : Value → Option Value := fun v =>
  match v.lookup "_version", v.lookup "count" with
  | some (.vNum _), some (.vNum 0) => some v
  | _, _ => none

/-- The config around `strictCountParse`. -/
def strictCfg : Config :=
  ⟨⟨strictCountParse⟩, "app-state", [], 1, []⟩

/-- A committed state valid for `strictCfg`. -/
def strictState : Value :=
  .vObj [("_version", .vNum 1), ("count", .vNum 0)]

/-! ### Helper lemmas -/

theorem toInt32_emod (n : Int) : toInt32 n % 4294967296 = n % 4294967296 := by
  unfold toInt32
  split <;> omega

theorem toInt32_congr {a b : Int} (h : a % 4294967296 = b % 4294967296) :
    toInt32 a = toInt32 b := by
  unfold toInt32
  rw [h]

theorem hashStep_eq_specHashStep (h : Int) (c : Nat) :
    hashStep h c = specHashStep h c := by
  unfold hashStep specHashStep
  apply toInt32_congr
  have h32 := toInt32_emod (h * 32)
  omega

theorem lookupKey_setKey_self {β : Type} (k : String) (v : β) (l : List (String × β)) :
    lookupKey k (setKey k v l) = some v := by
  induction l with
  | nil => simp [setKey, lookupKey]
  | cons p rest ih =>
    by_cases hk : p.1 = k
    · simp [setKey, hk, lookupKey]
    · simp [setKey, hk, lookupKey, ih]

theorem setKey_eq_self {β : Type} {k : String} {v : β} {l : List (String × β)}
    (h : lookupKey k l = some v) : setKey k v l = l := by
  induction l with
  | nil => simp [lookupKey] at h
  | cons p rest ih =>
    by_cases hk : p.1 = k
    · simp [lookupKey, hk] at h
      cases p with
      | mk k' v' => simp_all [setKey]
    · simp [lookupKey, hk] at h
      simp [setKey, hk, ih h]

theorem lookupKey_storeRemove (st : Store) (k : String) :
    lookupKey k (storeRemove st k) = none := by
  induction st with
  | nil => simp [storeRemove, lookupKey]
  | cons p rest ih =>
    by_cases hk : p.1 = k
    · simpa [storeRemove, hk] using ih
    · simpa [storeRemove, lookupKey, hk] using ih

/-- A stable key-sort of two permuted lists with pairwise-distinct keys
produces the same list: the caller's order is irrelevant. -/
theorem mergeSort_key_eq_of_perm {α κ : Type} [LinearOrder κ] (key : α → κ)
    (l₁ l₂ : List α) (hp : l₁.Perm l₂) (hnd : (l₁.map key).Nodup) :
    l₁.mergeSort (fun a b => decide (key a ≤ key b)) =
      l₂.mergeSort (fun a b => decide (key a ≤ key b)) := by
  have htrans : ∀ a b c : α, (fun a b => decide (key a ≤ key b)) a b →
      (fun a b => decide (key a ≤ key b)) b c →
      (fun a b => decide (key a ≤ key b)) a c := by
    intro a b c h1 h2
    simp only [decide_eq_true_eq] at *
    exact le_trans h1 h2
  have htotal : ∀ a b : α,
      (fun a b => decide (key a ≤ key b)) a b ||
        (fun a b => decide (key a ≤ key b)) b a := by
    intro a b
    simpa using le_total (key a) (key b)
  have hs₁ := List.sorted_mergeSort htrans htotal l₁
  have hs₂ := List.sorted_mergeSort htrans htotal l₂
  have hperm : (l₁.mergeSort (fun a b => decide (key a ≤ key b))).Perm
      (l₂.mergeSort (fun a b => decide (key a ≤ key b))) :=
    (List.mergeSort_perm l₁ _).trans (hp.trans (List.mergeSort_perm l₂ _).symm)
  have hnd₁ : ((l₁.mergeSort (fun a b => decide (key a ≤ key b))).map key).Nodup :=
    (((List.mergeSort_perm l₁ _).map key).nodup_iff).mpr hnd
  have hnd₂ : ((l₂.mergeSort (fun a b => decide (key a ≤ key b))).map key).Nodup :=
    ((hperm.map key).nodup_iff).mp hnd₁
  have strict : ∀ {l : List α},
      l.Pairwise (fun a b => decide (key a ≤ key b) = true) →
      (l.map key).Nodup → l.Pairwise (fun a b => key a < key b) := by
    intro l hle hnod
    have hne : l.Pairwise (fun a b => key a ≠ key b) := List.pairwise_map.mp hnod
    exact (hle.and hne).imp fun hab =>
      lt_of_le_of_ne (by simpa using hab.1) hab.2
  have hlt₁ := strict hs₁ hnd₁
  have hlt₂ := strict hs₂ hnd₂
  haveI : IsAntisymm α (fun a b => key a < key b) :=
    ⟨fun a b h1 h2 => absurd (lt_trans h1 h2) (lt_irrefl _)⟩
  exact List.eq_of_perm_of_sorted hperm hlt₁ hlt₂

theorem mem_expectedVersions (fromVersion toVersion v : Int) :
    v ∈ expectedVersions fromVersion toVersion ↔
      fromVersion < v ∧ v ≤ toVersion := by
  unfold expectedVersions
  rw [List.mem_map]
  constructor
  · rintro ⟨i, hi, rfl⟩
    rw [List.mem_range] at hi
    omega
  · intro h
    refine ⟨(v - fromVersion - 1).toNat, ?_, ?_⟩
    · rw [List.mem_range]
      omega
    · omega

theorem mem_providedVersions (fromVersion toVersion : Int)
    (migrations : List Migration) (v : Int) :
    v ∈ providedVersions fromVersion toVersion migrations ↔
      ∃ m ∈ migrations, m.metadata.version = v ∧
        fromVersion < v ∧ v ≤ toVersion := by
  unfold providedVersions migrationsToRun sortedMigrations
  simp only [List.mem_map, List.mem_filter, List.mem_mergeSort,
    Bool.and_eq_true, decide_eq_true_eq]
  constructor
  · rintro ⟨m, ⟨hm, h1, h2⟩, rfl⟩
    exact ⟨m, hm, rfl, h1, h2⟩
  · rintro ⟨m, hm, rfl, h1, h2⟩
    exact ⟨m, ⟨hm, h1, h2⟩, rfl⟩

theorem mem_missingVersions (fromVersion toVersion : Int)
    (migrations : List Migration) (v : Int) :
    v ∈ missingVersions fromVersion toVersion migrations ↔
      v ∈ expectedVersions fromVersion toVersion ∧
      ∀ m ∈ migrations, m.metadata.version ≠ v := by
  unfold missingVersions
  rw [List.mem_filter]
  have hsimp : (!(providedVersions fromVersion toVersion migrations).contains v) = true ↔
      ¬ v ∈ providedVersions fromVersion toVersion migrations := by simp
  rw [hsimp, mem_providedVersions]
  constructor
  · rintro ⟨hexp, hnprov⟩
    refine ⟨hexp, fun m hm hv => hnprov ⟨m, hm, hv, ?_⟩⟩
    rw [← hv] at hexp ⊢
    exact (mem_expectedVersions fromVersion toVersion m.metadata.version).mp hexp
  · rintro ⟨hexp, hnone⟩
    refine ⟨hexp, fun hprov => ?_⟩
    obtain ⟨m, hm, hv, _⟩ := hprov
    exact hnone m hm hv

theorem missingVersions_map_transform (fromVersion toVersion : Int)
    (migrations : List Migration) (f : Value → Option Value) :
    missingVersions fromVersion toVersion
        (migrations.map fun m => ⟨m.metadata, f⟩) =
      missingVersions fromVersion toVersion migrations := by
  unfold missingVersions
  apply List.filter_congr
  intro v _
  have hiff : v ∈ providedVersions fromVersion toVersion
        (migrations.map fun m => ⟨m.metadata, f⟩) ↔
      v ∈ providedVersions fromVersion toVersion migrations := by
    rw [mem_providedVersions, mem_providedVersions]
    constructor
    · rintro ⟨m, hm, hv, h1, h2⟩
      rw [List.mem_map] at hm
      obtain ⟨m0, hm0, rfl⟩ := hm
      exact ⟨m0, hm0, hv, h1, h2⟩
    · rintro ⟨m0, hm0, hv, h1, h2⟩
      exact ⟨⟨m0.metadata, f⟩, List.mem_map.mpr ⟨m0, hm0, rfl⟩, hv, h1, h2⟩
  have hc : ∀ l : List Int, l.contains v = decide (v ∈ l) := by
    intro l
    simp [List.contains_eq_any_beq]
  rw [hc, hc, decide_eq_decide.mpr hiff]

theorem sortedMigrations_eq_of_perm (migs₁ migs₂ : List Migration)
    (hp : migs₁.Perm migs₂)
    (hnd : (migs₁.map fun m => m.metadata.version).Nodup) :
    sortedMigrations migs₁ = sortedMigrations migs₂ := by
  have h := mergeSort_key_eq_of_perm (fun m : Migration => m.metadata.version)
    migs₁ migs₂ hp hnd
  exact h

/-! ### The claims -/

/-- C4: whenever some version in `{fromVersion+1 .. toVersion}` has no
supplied migration, `runMigrations` fails with MissingMigration naming
every missing version, and zero transform functions are invoked (the
result does not depend on the transforms at all — no partial
application). -/
theorem runMigrations_missing_failFast (state : Value) (fromVersion toVersion : Int)
    (migrations : List Migration) (hlt : fromVersion < toVersion)
    (hmiss : ∃ v, v ∈ expectedVersions fromVersion toVersion ∧
      ∀ m ∈ migrations, m.metadata.version ≠ v) :
    runMigrations state fromVersion toVersion migrations =
      .error (.missing (missingVersions fromVersion toVersion migrations)
        fromVersion toVersion) ∧
    (∀ v, v ∈ missingVersions fromVersion toVersion migrations ↔
      v ∈ expectedVersions fromVersion toVersion ∧
      ∀ m ∈ migrations, m.metadata.version ≠ v) ∧
    (∀ f : Value → Option Value, ∀ state' : Value,
      runMigrations state' fromVersion toVersion
        (migrations.map fun m => ⟨m.metadata, f⟩) =
      runMigrations state' fromVersion toVersion migrations) := by
  have hne : missingVersions fromVersion toVersion migrations ≠ [] := by
    obtain ⟨v, hv1, hv2⟩ := hmiss
    exact List.ne_nil_of_mem
      ((mem_missingVersions fromVersion toVersion migrations v).mpr ⟨hv1, hv2⟩)
  have hrun : ∀ (migs : List Migration) (s : Value),
      missingVersions fromVersion toVersion migs ≠ [] →
      runMigrations s fromVersion toVersion migs =
        .error (.missing (missingVersions fromVersion toVersion migs)
          fromVersion toVersion) := by
    intro migs s h
    unfold runMigrations
    rw [if_neg (by omega), if_neg (by omega), if_pos h]
  refine ⟨hrun migrations state hne,
    fun v => mem_missingVersions fromVersion toVersion migrations v,
    fun f state' => ?_⟩
  have hmap := missingVersions_map_transform fromVersion toVersion migrations f
  rw [hrun _ state' (by rw [hmap]; exact hne), hrun migrations state' hne, hmap]

/-- Witness for C4: requesting 1→3 with only migration 3 registered fails
with MissingMigration naming exactly version 2. -/
theorem runMigrations_missing_failFast_witness :
    runMigrations (.vNum 0) 1 3 [migOnly3] =
      .error (.missing (missingVersions 1 3 [migOnly3]) 1 3) ∧
    missingVersions 1 3 [migOnly3] = [2] :=
  ⟨(runMigrations_missing_failFast (.vNum 0) 1 3 [migOnly3] (by decide)
      ⟨2, by decide, by decide⟩).1,
    by rfl⟩

/-- C5: for every input state, every `fromVersion < toVersion`, and every
permutation of the same set of uniquely-versioned migrations, the engine
returns the identical result — the caller's ordering never matters. -/
theorem runMigrations_order_independent (state : Value) (fromVersion toVersion : Int)
    (migs₁ migs₂ : List Migration) (hlt : fromVersion < toVersion)
    (hp : migs₁.Perm migs₂)
    (hnd : (migs₁.map fun m => m.metadata.version).Nodup) :
    runMigrations state fromVersion toVersion migs₁ =
      runMigrations state fromVersion toVersion migs₂ := by
  have hs : sortedMigrations migs₁ = sortedMigrations migs₂ :=
    sortedMigrations_eq_of_perm migs₁ migs₂ hp hnd
  unfold runMigrations missingVersions providedVersions migrationsToRun
  rw [hs]

/-- Witness for C5: the unsorted supply `{2,3,1}` for a 1→3 run yields the
identical result as the pre-sorted `{1,2,3}`. -/
theorem runMigrations_order_independent_witness :
    runMigrations (.vStr "s") 1 3 [migV2, migV3, migV1] =
      runMigrations (.vStr "s") 1 3 [migV1, migV2, migV3] :=
  runMigrations_order_independent (.vStr "s") 1 3 _ _ (by decide)
    ((List.Perm.cons migV2 (List.Perm.swap migV1 migV3 [])).trans
      (List.Perm.swap migV1 migV2 [migV3]))
    (by decide)

/-- C8: the hash equals the 32-bit rolling accumulator `h := h*31 + c`
truncated to 32 bits at each step, emitted as the absolute value in
base 36, and it is deterministic. -/
theorem simpleHash_spec :
    (∀ codes, simpleHash codes = specSimpleHash codes) ∧
    (∀ c₁ c₂ : List Nat, c₁ = c₂ → simpleHash c₁ = simpleHash c₂) := by
  have hstep : hashStep = specHashStep := by
    funext h c
    exact hashStep_eq_specHashStep h c
  constructor
  · intro codes
    unfold simpleHash specSimpleHash
    rw [hstep]
  · intro c₁ c₂ h
    rw [h]

/-- Witness for C8 at the concrete input "test". -/
theorem simpleHash_spec_witness :
    simpleHash (strCodes "test") = specSimpleHash (strCodes "test") ∧
    simpleHash [104, 105] = simpleHash [104, 105] :=
  ⟨simpleHash_spec.1 (strCodes "test"),
    simpleHash_spec.2 [104, 105] [104, 105] rfl⟩

theorem renderFields_eq_map (fs : List (String × ZType)) :
    renderFields fs = fs.map fun p => (p.1, getTypeString p.2) := by
  induction fs with
  | nil => rfl
  | cons p rest ih =>
    cases p
    simp [renderFields, ih]

/-- The keys of a key-sorted rendered field list come out sorted. -/
theorem sorted_keys_mergeSort_fieldLE (rendered : List (String × String)) :
    ((rendered.mergeSort fieldLE).map Prod.fst).Sorted (· ≤ ·) := by
  have htrans : ∀ a b c : String × String, fieldLE a b → fieldLE b c → fieldLE a c := by
    intro a b c h1 h2
    simp only [fieldLE, decide_eq_true_eq] at *
    exact le_trans h1 h2
  have htotal : ∀ a b : String × String, fieldLE a b || fieldLE b a := by
    intro a b
    simp only [fieldLE]
    simpa using le_total a.1 b.1
  have hs := List.sorted_mergeSort htrans htotal rendered
  rw [List.Sorted, List.pairwise_map]
  exact hs.imp fun hab => by simpa [fieldLE] using hab

/-- C7: two independently built but structurally identical schemas (the
same field names mapped to the same descriptor types, in any insertion
order) produce the same key-sorted shape string and the same hash. -/
theorem schemaShape_structural_invariant (fields₁ fields₂ : List (String × ZType))
    (hp : fields₁.Perm fields₂)
    (hnd : (fields₁.map Prod.fst).Nodup) :
    extractSchemaShape (.zobject fields₁) = extractSchemaShape (.zobject fields₂) ∧
    hashSchema (.zobject fields₁) = hashSchema (.zobject fields₂) ∧
    (((renderFields fields₁).mergeSort fieldLE).map Prod.fst).Sorted (· ≤ ·) := by
  have hpr : (renderFields fields₁).Perm (renderFields fields₂) := by
    rw [renderFields_eq_map, renderFields_eq_map]
    exact hp.map _
  have hfst : (Prod.fst ∘ fun p : String × ZType => (p.1, getTypeString p.2)) =
      Prod.fst := by
    funext p
    rfl
  have hndr : ((renderFields fields₁).map Prod.fst).Nodup := by
    rw [renderFields_eq_map, List.map_map, hfst]
    exact hnd
  have hsort : (renderFields fields₁).mergeSort fieldLE =
      (renderFields fields₂).mergeSort fieldLE := by
    have h := mergeSort_key_eq_of_perm (fun p : String × String => p.1)
      (renderFields fields₁) (renderFields fields₂) hpr hndr
    exact h
  have hshape : renderSortedFields (renderFields fields₁) =
      renderSortedFields (renderFields fields₂) := by
    unfold renderSortedFields
    rw [hsort]
  refine ⟨?_, ?_, sorted_keys_mergeSort_fieldLE _⟩
  · simp only [extractSchemaShape]
    rw [hshape]
  · simp only [hashSchema, extractSchemaShape]
    rw [hshape]

/-- Witness for C7: `{b:number, a:string}` built in either insertion order
gives the same shape string and the same hash. -/
theorem schemaShape_structural_invariant_witness :
    extractSchemaShape (.zobject [("b", .znumber), ("a", .zstring)]) =
      extractSchemaShape (.zobject [("a", .zstring), ("b", .znumber)]) ∧
    hashSchema (.zobject [("b", .znumber), ("a", .zstring)]) =
      hashSchema (.zobject [("a", .zstring), ("b", .znumber)]) :=
  ⟨(schemaShape_structural_invariant [("b", ZType.znumber), ("a", ZType.zstring)]
      [("a", ZType.zstring), ("b", ZType.znumber)]
      (List.Perm.swap ("a", ZType.zstring) ("b", ZType.znumber) []) (by decide)).1,
    (schemaShape_structural_invariant [("b", ZType.znumber), ("a", ZType.zstring)]
      [("a", ZType.zstring), ("b", ZType.znumber)]
      (List.Perm.swap ("a", ZType.zstring) ("b", ZType.znumber) []) (by decide)).2.1⟩

/-- C9: `extractSchemaShape` succeeds exactly on roots exposing a field map,
producing the lexicographically key-sorted shape string, and fails with
InvalidSchema on every other root. -/
theorem extractSchemaShape_root_contract (t : ZType) :
    (∀ fields, t = .zobject fields →
      extractSchemaShape t =
        .ok ("\x7b" ++ renderSortedFields (renderFields fields) ++ "\x7d") ∧
      (((renderFields fields).mergeSort fieldLE).map Prod.fst).Sorted (· ≤ ·)) ∧
    ((∀ fields, t ≠ .zobject fields) → extractSchemaShape t = .error .invalidSchema) := by
  constructor
  · rintro fields rfl
    exact ⟨rfl, sorted_keys_mergeSort_fieldLE _⟩
  · intro h
    cases t <;> first | rfl | exact absurd rfl (h _)

/-- Witness for C9: an object root succeeds with the sorted shape string, a
number root fails with InvalidSchema. -/
theorem extractSchemaShape_root_contract_witness :
    extractSchemaShape (.zobject [("b", .znumber), ("a", .zstring)]) =
      .ok ("\x7b" ++
        renderSortedFields (renderFields [("b", .znumber), ("a", .zstring)]) ++
        "\x7d") ∧
    extractSchemaShape .znumber = .error .invalidSchema :=
  ⟨((extractSchemaShape_root_contract (.zobject [("b", .znumber), ("a", .zstring)])).1
      [("b", .znumber), ("a", .zstring)] rfl).1,
    (extractSchemaShape_root_contract .znumber).2 fun fields h => nomatch h⟩

theorem value_lookup_isObj {v : Value} {k : String} {x : Value}
    (h : v.lookup k = some x) : ∃ fs, v = .vObj fs := by
  cases v with
  | vObj fs => exact ⟨fs, rfl⟩
  | vNull => simp [Value.lookup] at h
  | vBool b => simp [Value.lookup] at h
  | vNum n => simp [Value.lookup] at h
  | vStr s => simp [Value.lookup] at h
  | vArr xs => simp [Value.lookup] at h

/-- C1: empty storage, a non-parseable blob, and a blob whose read/migrate/
validate pipeline fails all produce the same final state — the schema
defaults for `currentVersion` (with the reserved version field forced) —
a blob at the current version that fails schema validation is such a
pipeline failure, and `init` never rejects for data-quality reasons,
marking `initialized = true` for every storage content. -/
theorem init_data_quality (cfg : Config) (ms : MState) (d : Value)
    (hini : ms.initialized = false)
    (hdef : getDefaults cfg cfg.currentVersion = some d) :
    (∀ (parsed : Value) (stEmpty stCorrupt stBad : Store),
      initCandidate cfg parsed = none →
      lookupKey cfg.storageKey stEmpty = none →
      lookupKey cfg.storageKey stCorrupt = some .corrupt →
      lookupKey cfg.storageKey stBad = some (.json parsed) →
      init cfg ms stEmpty =
        (.ok ⟨some (forceVersion cfg.currentVersion d), true⟩, 1) ∧
      init cfg ms stCorrupt = init cfg ms stEmpty ∧
      init cfg ms stBad = init cfg ms stEmpty) ∧
    (∀ parsed : Value, storedVersionOf parsed = cfg.currentVersion →
      cfg.schema.parse parsed = none → initCandidate cfg parsed = none) ∧
    (∀ st : Store, ∃ ms' : MState,
      init cfg ms st = (.ok ms', 1) ∧ ms'.initialized = true) := by
  refine ⟨?_, ?_, ?_⟩
  · intro parsed stEmpty stCorrupt stBad hcand hE hC hB
    have hempty : init cfg ms stEmpty =
        (.ok ⟨some (forceVersion cfg.currentVersion d), true⟩, 1) := by
      simp [init, hini, hE, hdef]
    have hcorrupt : init cfg ms stCorrupt =
        (.ok ⟨some (forceVersion cfg.currentVersion d), true⟩, 1) := by
      simp [init, hini, hC, hdef]
    have hbad : init cfg ms stBad =
        (.ok ⟨some (forceVersion cfg.currentVersion d), true⟩, 1) := by
      simp [init, hini, hB, hcand, hdef]
    exact ⟨hempty, hcorrupt.trans hempty.symm, hbad.trans hempty.symm⟩
  · intro parsed hver hparse
    cases parsed with
    | vNull => rfl
    | vBool b =>
      simp [initCandidate, hver, hparse]
    | vNum n =>
      simp [initCandidate, hver, hparse]
    | vStr s =>
      simp [initCandidate, hver, hparse]
    | vArr xs =>
      simp [initCandidate, hver, hparse]
    | vObj fs =>
      simp [initCandidate, hver, hparse]
  · intro st
    rcases hst : lookupKey cfg.storageKey st with _ | stored
    · exact ⟨⟨some (forceVersion cfg.currentVersion d), true⟩,
        by simp [init, hini, hst, hdef], rfl⟩
    · cases stored with
      | corrupt =>
        exact ⟨⟨some (forceVersion cfg.currentVersion d), true⟩,
          by simp [init, hini, hst, hdef], rfl⟩
      | json parsed =>
        rcases hcand : initCandidate cfg parsed with _ | s
        · exact ⟨⟨some (forceVersion cfg.currentVersion d), true⟩,
            by simp [init, hini, hst, hcand, hdef], rfl⟩
        · exact ⟨⟨some (forceVersion cfg.currentVersion s), true⟩,
            by simp [init, hini, hst, hcand], rfl⟩

/-- Witness for C1 on the concrete demo manager: empty storage, a corrupt
blob and a schema-invalid blob all initialize to the same defaults. -/
theorem init_data_quality_witness :
    init demoCfg ⟨none, false⟩ [] =
      (.ok ⟨some (forceVersion demoCfg.currentVersion demoDefaults), true⟩, 1) ∧
    init demoCfg ⟨none, false⟩ [("app-state", .corrupt)] =
      init demoCfg ⟨none, false⟩ [] ∧
    init demoCfg ⟨none, false⟩ [("app-state", .json demoBadBlob)] =
      init demoCfg ⟨none, false⟩ [] :=
  (init_data_quality demoCfg ⟨none, false⟩ demoDefaults rfl rfl).1
    demoBadBlob [] [("app-state", .corrupt)] [("app-state", .json demoBadBlob)]
    rfl rfl rfl rfl

/-- C2: on an initialized manager, a schema-valid `set(k, v)` reports no
error and a following `get(k)` returns `v`; after the in-memory state is
discarded and a fresh `init()` runs against the bytes `set` wrote,
`get(k)` returns the same value. The hypotheses are the Zod contracts the
library relies on: the write validates, validation preserves the written
field and the reserved version field, and re-validating a validated state
is the identity. -/
theorem set_get_roundtrip (cfg : Config) (ms : MState) (st : Store)
    (key : String) (value s validated : Value)
    (hini : ms.initialized = true) (hst : ms.state = some s)
    (hparse : cfg.schema.parse (s.setProp key value) = some validated)
    (hkey : validated.lookup key = some value)
    (hver : validated.lookup "_version" = some (.vNum cfg.currentVersion))
    (hidem : cfg.schema.parse validated = some validated) :
    (set cfg ms st key value).err = none ∧
    get (set cfg ms st key value).ms key = .ok (some value) ∧
    (init cfg ⟨none, false⟩ (set cfg ms st key value).st).1 =
      .ok ⟨some validated, true⟩ ∧
    get ⟨some validated, true⟩ key = .ok (some value) := by
  obtain ⟨mss, msi⟩ := ms
  simp only at hst hini
  subst hst hini
  have hset : set cfg ⟨some s, true⟩ st key value =
      ⟨⟨some validated, true⟩, storeSet st cfg.storageKey (.json validated), none⟩ := by
    simp [set, hparse]
  obtain ⟨fs, hfs⟩ := value_lookup_isObj hver
  have hsv : storedVersionOf validated = cfg.currentVersion := by
    simp [storedVersionOf, hver]
  have hcand : initCandidate cfg validated = some validated := by
    subst hfs
    simp [initCandidate, hsv, hidem]
  have hforce : forceVersion cfg.currentVersion validated = validated := by
    subst hfs
    have hl : lookupKey "_version" fs = some (.vNum cfg.currentVersion) := hver
    simp [forceVersion, hasKey, hl, setKey_eq_self hl]
  have hlook : lookupKey cfg.storageKey (storeSet st cfg.storageKey (.json validated)) =
      some (.json validated) := lookupKey_setKey_self cfg.storageKey _ st
  refine ⟨by rw [hset], by rw [hset]; simp [get, hkey], ?_, by simp [get, hkey]⟩
  rw [hset]
  simp [init, hlook, hcand, hforce]

/-- Witness for C2 on the demo manager: `set("count", 5)` then `get`,
and `get` after a fresh `init` against the written bytes. -/
theorem set_get_roundtrip_witness :
    (set demoCfg ⟨some demoDefaults, true⟩ [] "count" (.vNum 5)).err = none ∧
    get (set demoCfg ⟨some demoDefaults, true⟩ [] "count" (.vNum 5)).ms "count" =
      .ok (some (.vNum 5)) ∧
    (init demoCfg ⟨none, false⟩
        (set demoCfg ⟨some demoDefaults, true⟩ [] "count" (.vNum 5)).st).1 =
      .ok ⟨some (.vObj [("_version", .vNum 1), ("count", .vNum 5)]), true⟩ ∧
    get ⟨some (.vObj [("_version", .vNum 1), ("count", .vNum 5)]), true⟩ "count" =
      .ok (some (.vNum 5)) :=
  set_get_roundtrip demoCfg ⟨some demoDefaults, true⟩ [] "count" (.vNum 5)
    demoDefaults (.vObj [("_version", .vNum 1), ("count", .vNum 5)])
    rfl rfl rfl rfl rfl rfl

/-- Counterexample to C3 as stated: on a validation failure, `set` leaves
the merged (invalid) draft in the committed in-memory state — the merge
`(state as any)[key] = value` mutates the state object in place before
`schema.parse` runs, so `get` afterwards observes the new value, not the
pre-call one. -/
theorem set_validation_state_changed_counterexample :
    (set strictCfg ⟨some strictState, true⟩ [] "count" (.vNum 5)).err =
      some .validation ∧
    get (set strictCfg ⟨some strictState, true⟩ [] "count" (.vNum 5)).ms "count" =
      .ok (some (.vNum 5)) ∧
    get ⟨some strictState, true⟩ "count" = .ok (some (.vNum 0)) ∧
    get (set strictCfg ⟨some strictState, true⟩ [] "count" (.vNum 5)).ms "count" ≠
      get ⟨some strictState, true⟩ "count" := by
  refine ⟨rfl, rfl, rfl, ?_⟩
  have h5 : get (set strictCfg ⟨some strictState, true⟩ [] "count" (.vNum 5)).ms
      "count" = .ok (some (.vNum 5)) := rfl
  have h0 : get (⟨some strictState, true⟩ : MState) "count" =
      .ok (some (.vNum 0)) := rfl
  rw [h5, h0]
  intro h
  injection h with h1
  injection h1 with h2
  injection h2 with h3
  exact absurd h3 (by decide)

/-- C3 (amended): on an initialized manager, a `set(key, value)` whose
revalidation of the whole draft fails propagates a ValidationError and
writes nothing to storage, but the committed in-memory state now holds the
merged (invalid) draft — the merge happens in place before validation, so
the pre-call state is not preserved. -/
theorem set_validation_failure_propagates (cfg : Config) (ms : MState) (st : Store)
    (key : String) (value s : Value)
    (hini : ms.initialized = true) (hst : ms.state = some s)
    (hparse : cfg.schema.parse (s.setProp key value) = none) :
    set cfg ms st key value =
      ⟨⟨some (s.setProp key value), true⟩, st, some .validation⟩ := by
  obtain ⟨mss, msi⟩ := ms
  simp only at hst hini
  subst hst hini
  simp [set, hparse]

/-- Witness for the amended C3 on the strict demo manager. -/
theorem set_validation_failure_propagates_witness :
    set strictCfg ⟨some strictState, true⟩ [] "count" (.vNum 5) =
      ⟨⟨some (strictState.setProp "count" (.vNum 5)), true⟩, [],
        some .validation⟩ :=
  set_validation_failure_propagates strictCfg ⟨some strictState, true⟩ []
    "count" (.vNum 5) strictState rfl rfl rfl

/-- C6: `init()` is idempotent — after a completed `init()`, a second call
returns the state unchanged and performs zero `getItem` reads (the
store itself is never written by `init`, which returns no store). -/
theorem init_idempotent (cfg : Config) (ms ms₁ : MState) (st : Store) (n : Nat)
    (h : init cfg ms st = (.ok ms₁, n)) :
    init cfg ms₁ st = (.ok ms₁, 0) := by
  have hini : ms₁.initialized = true := by
    by_cases hb : ms.initialized = true
    · simp only [init] at h
      rw [if_pos hb] at h
      injection h with h1 h2
      injection h1 with h3
      rw [← h3]
      exact hb
    · simp only [init] at h
      rw [if_neg hb] at h
      split at h
      · injection h with h1 h2
        injection h1 with h3
        rw [← h3]
      · injection h with h1 h2
        exact absurd h1 (by simp)
  simp [init, hini]

/-- Witness for C6 on the demo manager: a second `init` after the first is
a no-op with zero reads. -/
theorem init_idempotent_witness :
    init demoCfg ⟨some demoDefaults, true⟩ [] =
      (.ok ⟨some demoDefaults, true⟩, 0) :=
  init_idempotent demoCfg ⟨none, false⟩ ⟨some demoDefaults, true⟩ [] 1 rfl

/-- C10: `clear()` does not require initialization — on a manager that was
never initialized it resets the in-memory state to the schema defaults and
removes the persisted bytes, but leaves the `initialized` flag unset, so
`get`, `getAll`, `set` and `update` all still fail with NotInitialized. -/
theorem clear_without_init (cfg : Config) (ms : MState) (st : Store) (d : Value)
    (hini : ms.initialized = false)
    (hdef : getDefaults cfg cfg.currentVersion = some d) :
    clear cfg ms st = .ok (⟨some d, false⟩, storeRemove st cfg.storageKey) ∧
    lookupKey cfg.storageKey (storeRemove st cfg.storageKey) = none ∧
    (∀ key, get ⟨some d, false⟩ key = .error .notInitialized) ∧
    getAll ⟨some d, false⟩ = .error .notInitialized ∧
    (∀ st' key value, (set cfg ⟨some d, false⟩ st' key value).err =
      some .notInitialized) ∧
    (∀ st' key f, (update cfg ⟨some d, false⟩ st' key f).err =
      some .notInitialized) := by
  refine ⟨?_, lookupKey_storeRemove st cfg.storageKey, fun key => rfl, rfl,
    fun st' key value => rfl, fun st' key f => rfl⟩
  simp [clear, hdef, hini]

/-- Witness for C10 on the demo manager with a populated store. -/
theorem clear_without_init_witness :
    clear demoCfg ⟨none, false⟩ [("app-state", .json demoDefaults)] =
      .ok (⟨some demoDefaults, false⟩,
        storeRemove [("app-state", .json demoDefaults)] "app-state") ∧
    lookupKey "app-state"
      (storeRemove [("app-state", .json demoDefaults)] "app-state") = none ∧
    get ⟨some demoDefaults, false⟩ "count" = .error .notInitialized :=
  have h := clear_without_init demoCfg ⟨none, false⟩
    [("app-state", .json demoDefaults)] demoDefaults rfl rfl
  ⟨h.1, h.2.1, h.2.2.1 "count"⟩

end SVS
